import Mathlib

set_option maxRecDepth 40000

/-!
# Verification of the `pages-converter` document-bundle pipeline

Shallow embedding of `src/pages_converter/__init__.py` (class `PagesConverter`).
Strings are modelled as `List Char` (Python `str` is a sequence of code points);
file contents written to the archive are modelled as `List Nat` byte sequences.

Python primitives used by the source (`str.replace`, `str.split`, `str.strip`,
`str.isupper`, `str.startswith`, `bytes.fromhex`, UTF-8 encoding) are embedded
first; the converter's own functions follow, keeping the source's names.
The `isupper`/`strip` embeddings are ASCII-faithful (the repository's inputs and
all fixed strings are ASCII; Python additionally treats some non-ASCII
code points as cased or as whitespace, which is out of scope here).
-/

namespace PagesConverter

/-- Python whitespace characters recognised by `str.strip()` (ASCII range). -/
def isPySpace (c : Char) : Bool :=
  c = ' ' || c = '\t' || c = '\n' || c = '\r' || c = '\x0b' || c = '\x0c'

/-- Embedding of Python `str.strip()`: remove leading and trailing whitespace. -/
def pyStrip (s : List Char) : List Char :=
  ((s.dropWhile isPySpace).reverse.dropWhile isPySpace).reverse

/-- Embedding of Python `s.startswith(pat)`: `listStartsWith s pat`. -/
def listStartsWith : List Char → List Char → Bool
  | _, [] => true
  | [], _ :: _ => false
  | a :: as, b :: bs => a = b && listStartsWith as bs

/-- Prepend a character to the first piece of a split-in-progress. -/
def consHead (c : Char) : List (List Char) → List (List Char)
  | [] => [[c]]
  | p :: ps => (c :: p) :: ps

/-- Character-wise expansion: apply `f` to every character and concatenate.
Used to state that the source's chained `str.replace` calls act independently
on each character. -/
def charExpand (f : Char → List Char) : List Char → List Char
  | [] => []
  | c :: rest => f c ++ charExpand f rest

/-- Embedding of Python `str.replace(pat, rep)` for a non-empty pattern:
scan left to right, replacing non-overlapping occurrences of `pat` by `rep`.
(The source never calls `replace` with an empty pattern; for `pat = []` this
embedding leaves the string unchanged.) -/
def pyReplace (pat rep : List Char) : List Char → List Char
  | [] => []
  | c :: rest =>
    if pat ≠ [] ∧ listStartsWith (c :: rest) pat then
      rep ++ pyReplace pat rep (rest.drop (pat.length - 1))
    else
      c :: pyReplace pat rep rest
termination_by s => s.length
decreasing_by
  · simp only [List.length_cons]
    have := List.length_drop (pat.length - 1) rest
    omega
  · simp only [List.length_cons]; omega

/-- Embedding of Python `str.split(sep)` for a one-character separator. -/
def splitOnChar (sep : Char) : List Char → List (List Char)
  | [] => [[]]
  | c :: rest =>
    if c = sep then [] :: splitOnChar sep rest else consHead c (splitOnChar sep rest)

/-- Embedding of Python `str.split('\n\n')` (the two-character separator used
by `_text_to_pages_xml`, line 90 of the source): greedy left-to-right split. -/
def splitOnNN : List Char → List (List Char)
  | [] => [[]]
  | [c] => [[c]]
  | c1 :: c2 :: rest =>
    if c1 = '\n' ∧ c2 = '\n' then [] :: splitOnNN rest
    else consHead c1 (splitOnNN (c2 :: rest))

theorem length_dropWhile_le' {α : Type} (p : α → Bool) :
    ∀ l : List α, (l.dropWhile p).length ≤ l.length
  | [] => Nat.le_refl _
  | a :: l => by
    rw [List.dropWhile_cons]
    split
    · exact Nat.le_succ_of_le (length_dropWhile_le' p l)
    · exact Nat.le_refl _

/-- Split on blank-line boundaries as worded by the specification:
a maximal run of two or more consecutive line breaks separates candidates. -/
def specSplit : List Char → List (List Char)
  | [] => [[]]
  | [c] => [[c]]
  | c1 :: c2 :: rest =>
    if c1 = '\n' ∧ c2 = '\n' then
      [] :: specSplit (rest.dropWhile (fun c => c = '\n'))
    else consHead c1 (specSplit (c2 :: rest))
termination_by s => s.length
decreasing_by
  · simp only [List.length_cons]
    have := length_dropWhile_le' (fun c => c = '\n') rest
    omega
  · simp only [List.length_cons]; omega

/-- Embedding of Python `'\n'.join(parts)`. -/
def joinNL : List (List Char) → List Char
  | [] => []
  | [p] => p
  | p :: q :: rest => p ++ '\n' :: joinNL (q :: rest)

/-- A cased character (ASCII): a letter. Used by the `str.isupper` embedding. -/
def isCasedChar (c : Char) : Bool :=
  ('A' ≤ c && c ≤ 'Z') || ('a' ≤ c && c ≤ 'z')

/-- Embedding of Python `str.isupper()` (ASCII scope): at least one cased
character and no lowercase character. -/
def pyIsupper (s : List Char) : Bool :=
  s.any isCasedChar && !s.any (fun c => 'a' ≤ c && c ≤ 'z')

/-- Source `_escape_xml` (lines 218-224): five chained `str.replace` calls,
ampersand first. -/
def escape_xml (text : List Char) : List Char :=
  pyReplace ['\''] ['&', 'a', 'p', 'o', 's', ';']
    (pyReplace ['"'] ['&', 'q', 'u', 'o', 't', ';']
      (pyReplace ['>'] ['&', 'g', 't', ';']
        (pyReplace ['<'] ['&', 'l', 't', ';']
          (pyReplace ['&'] ['&', 'a', 'm', 'p', ';'] text))))

/-- The XML entity for a single character: each of the five reserved
characters maps to its entity, every other character to itself. -/
def entityOf (c : Char) : List Char :=
  if c = '&' then ['&', 'a', 'm', 'p', ';']
  else if c = '<' then ['&', 'l', 't', ';']
  else if c = '>' then ['&', 'g', 't', ';']
  else if c = '"' then ['&', 'q', 'u', 'o', 't', ';']
  else if c = '\'' then ['&', 'a', 'p', 'o', 's', ';']
  else [c]

/-- Standard XML entity decoding for the five predefined entities: the text
payloads of the serialized document are parsed back with this. -/
def unescape_xml : List Char → List Char
  | [] => []
  | c :: rest =>
    if c = '&' then
      if listStartsWith rest ['a', 'm', 'p', ';'] then '&' :: unescape_xml (rest.drop 4)
      else if listStartsWith rest ['l', 't', ';'] then '<' :: unescape_xml (rest.drop 3)
      else if listStartsWith rest ['g', 't', ';'] then '>' :: unescape_xml (rest.drop 3)
      else if listStartsWith rest ['q', 'u', 'o', 't', ';'] then '"' :: unescape_xml (rest.drop 5)
      else if listStartsWith rest ['a', 'p', 'o', 's', ';'] then '\'' :: unescape_xml (rest.drop 5)
      else c :: unescape_xml rest
    else c :: unescape_xml rest
termination_by s => s.length
decreasing_by
  all_goals simp only [List.length_cons]
  all_goals first
    | (rw [List.length_drop]; omega)
    | omega

/-- Checks that every ampersand in the string begins one of the five
predefined entities (no "unescaped occurrence" of `&`). -/
def ampersandsEntityOnly : List Char → Bool
  | [] => true
  | c :: rest =>
    if c = '&' then
      if listStartsWith rest ['a', 'm', 'p', ';'] then ampersandsEntityOnly (rest.drop 4)
      else if listStartsWith rest ['l', 't', ';'] then ampersandsEntityOnly (rest.drop 3)
      else if listStartsWith rest ['g', 't', ';'] then ampersandsEntityOnly (rest.drop 3)
      else if listStartsWith rest ['q', 'u', 'o', 't', ';'] then ampersandsEntityOnly (rest.drop 5)
      else if listStartsWith rest ['a', 'p', 'o', 's', ';'] then ampersandsEntityOnly (rest.drop 5)
      else false
    else ampersandsEntityOnly rest
termination_by s => s.length
decreasing_by
  all_goals simp only [List.length_cons]
  all_goals first
    | (rw [List.length_drop]; omega)
    | omega

/-- A character that is reserved in XML character data or attribute values. -/
def isRawReserved (c : Char) : Bool :=
  c = '<' || c = '>' || c = '"' || c = '\''

theorem charExpand_append (f : Char → List Char) :
    ∀ a b : List Char, charExpand f (a ++ b) = charExpand f a ++ charExpand f b
  | [], _ => rfl
  | c :: a, b => by
    rw [List.cons_append, charExpand, charExpand_append f a b, charExpand, List.append_assoc]

/-- A single-character `str.replace` is a character-wise substitution. -/
theorem pyReplace_single (c : Char) (rep : List Char) :
    ∀ s : List Char, pyReplace [c] rep s = charExpand (fun x => if x = c then rep else [x]) s
  | [] => by rw [pyReplace, charExpand]
  | x :: rest => by
    rw [pyReplace, charExpand]
    have hrec := pyReplace_single c rep rest
    by_cases h : x = c
    · simp [listStartsWith, h, hrec]
    · simp [listStartsWith, h, hrec]

theorem charExpand_comp (f g : Char → List Char) :
    ∀ s : List Char, charExpand g (charExpand f s) = charExpand (fun c => charExpand g (f c)) s
  | [] => rfl
  | c :: rest => by
    simp only [charExpand, charExpand_append, charExpand_comp f g rest]

theorem charExpand_congr {f g : Char → List Char} (h : ∀ c, f c = g c) :
    ∀ s : List Char, charExpand f s = charExpand g s
  | [] => rfl
  | c :: rest => by simp only [charExpand, h c, charExpand_congr h rest]

/-- The source's chained replacements, ampersand first, equal the simultaneous
character-wise entity substitution: exactly the five reserved characters are
substituted, and entities introduced by earlier steps are never re-escaped. -/
theorem escape_xml_charwise (s : List Char) : escape_xml s = charExpand entityOf s := by
  rw [escape_xml]
  rw [pyReplace_single '&', pyReplace_single '<', pyReplace_single '>',
    pyReplace_single '"', pyReplace_single '\'']
  rw [charExpand_comp, charExpand_comp, charExpand_comp, charExpand_comp]
  apply charExpand_congr
  intro c
  by_cases h1 : c = '&'
  · subst h1; rfl
  by_cases h2 : c = '<'
  · subst h2; rfl
  by_cases h3 : c = '>'
  · subst h3; rfl
  by_cases h4 : c = '"'
  · subst h4; rfl
  by_cases h5 : c = '\''
  · subst h5; rfl
  simp [charExpand, entityOf, h1, h2, h3, h4, h5]

theorem unescape_cons_of_ne (c : Char) (l : List Char) (h : ¬c = '&') :
    unescape_xml (c :: l) = c :: unescape_xml l := by
  rw [unescape_xml]
  simp [h]

theorem entityOf_of_plain {c : Char} (h1 : ¬c = '&') (h2 : ¬c = '<') (h3 : ¬c = '>')
    (h4 : ¬c = '"') (h5 : ¬c = '\'') : entityOf c = [c] := by
  simp [entityOf, h1, h2, h3, h4, h5]

/-- Escaping followed by entity decoding restores the input exactly. -/
theorem unescape_charExpand (s : List Char) :
    unescape_xml (charExpand entityOf s) = s := by
  induction s with
  | nil => rw [charExpand, unescape_xml]
  | cons c rest ih =>
    rw [charExpand]
    by_cases h1 : c = '&'
    · subst h1
      show unescape_xml ('&' :: 'a' :: 'm' :: 'p' :: ';' :: charExpand entityOf rest) = _
      rw [unescape_xml]
      simp [listStartsWith, ih]
    by_cases h2 : c = '<'
    · subst h2
      show unescape_xml ('&' :: 'l' :: 't' :: ';' :: charExpand entityOf rest) = _
      rw [unescape_xml]
      simp [listStartsWith, ih]
    by_cases h3 : c = '>'
    · subst h3
      show unescape_xml ('&' :: 'g' :: 't' :: ';' :: charExpand entityOf rest) = _
      rw [unescape_xml]
      simp [listStartsWith, ih]
    by_cases h4 : c = '"'
    · subst h4
      show unescape_xml ('&' :: 'q' :: 'u' :: 'o' :: 't' :: ';' :: charExpand entityOf rest) = _
      rw [unescape_xml]
      simp [listStartsWith, ih]
    by_cases h5 : c = '\''
    · subst h5
      show unescape_xml ('&' :: 'a' :: 'p' :: 'o' :: 's' :: ';' :: charExpand entityOf rest) = _
      rw [unescape_xml]
      simp [listStartsWith, ih]
    · rw [entityOf_of_plain h1 h2 h3 h4 h5]
      show unescape_xml (c :: charExpand entityOf rest) = _
      rw [unescape_cons_of_ne c _ h1, ih]

/-- No reserved character survives escaping in raw form. -/
theorem escape_no_raw_reserved (s : List Char) :
    (charExpand entityOf s).all (fun c => !isRawReserved c) = true := by
  induction s with
  | nil => rfl
  | cons c rest ih =>
    rw [charExpand, List.all_append]
    refine Bool.and_eq_true_iff.mpr (And.intro ?_ ih)
    by_cases h1 : c = '&'
    · subst h1; rfl
    by_cases h2 : c = '<'
    · subst h2; rfl
    by_cases h3 : c = '>'
    · subst h3; rfl
    by_cases h4 : c = '"'
    · subst h4; rfl
    by_cases h5 : c = '\''
    · subst h5; rfl
    · rw [entityOf_of_plain h1 h2 h3 h4 h5]
      simp [isRawReserved, h2, h3, h4, h5]

/-- Every ampersand in escaped output begins a predefined entity. -/
theorem escape_amps_entity_only (s : List Char) :
    ampersandsEntityOnly (charExpand entityOf s) = true := by
  induction s with
  | nil => rw [charExpand, ampersandsEntityOnly]
  | cons c rest ih =>
    rw [charExpand]
    by_cases h1 : c = '&'
    · subst h1
      show ampersandsEntityOnly ('&' :: 'a' :: 'm' :: 'p' :: ';' :: charExpand entityOf rest) = _
      rw [ampersandsEntityOnly]
      simp [listStartsWith, ih]
    by_cases h2 : c = '<'
    · subst h2
      show ampersandsEntityOnly ('&' :: 'l' :: 't' :: ';' :: charExpand entityOf rest) = _
      rw [ampersandsEntityOnly]
      simp [listStartsWith, ih]
    by_cases h3 : c = '>'
    · subst h3
      show ampersandsEntityOnly ('&' :: 'g' :: 't' :: ';' :: charExpand entityOf rest) = _
      rw [ampersandsEntityOnly]
      simp [listStartsWith, ih]
    by_cases h4 : c = '"'
    · subst h4
      show ampersandsEntityOnly ('&' :: 'q' :: 'u' :: 'o' :: 't' :: ';' :: charExpand entityOf rest) = _
      rw [ampersandsEntityOnly]
      simp [listStartsWith, ih]
    by_cases h5 : c = '\''
    · subst h5
      show ampersandsEntityOnly ('&' :: 'a' :: 'p' :: 'o' :: 's' :: ';' :: charExpand entityOf rest) = _
      rw [ampersandsEntityOnly]
      simp [listStartsWith, ih]
    · rw [entityOf_of_plain h1 h2 h3 h4 h5]
      show ampersandsEntityOnly (c :: charExpand entityOf rest) = _
      rw [ampersandsEntityOnly]
      simp [h1, ih]

theorem escape_xml_append (a b : List Char) :
    escape_xml (a ++ b) = escape_xml a ++ escape_xml b := by
  rw [escape_xml_charwise, escape_xml_charwise, escape_xml_charwise, charExpand_append]

/-! ## Paragraph splitting (plain-text mode)

`_text_to_pages_xml` line 90:
`paragraphs = [p.strip() for p in text_content.split('\n\n') if p.strip()]`. -/

/-- Strip every piece and discard the pieces that are empty after stripping. -/
def stripPieces (ll : List (List Char)) : List (List Char) :=
  (ll.map pyStrip).filter (fun p => !p.isEmpty)

theorem pyStrip_cons_space {c : Char} (h : isPySpace c = true) (l : List Char) :
    pyStrip (c :: l) = pyStrip l := by
  rw [pyStrip, pyStrip, List.dropWhile_cons_of_pos h]

theorem stripPieces_cons (h : List Char) (t : List (List Char)) :
    stripPieces (h :: t) =
      (if (pyStrip h).isEmpty then [] else [pyStrip h]) ++ stripPieces t := by
  rw [stripPieces, List.map_cons, List.filter_cons]
  by_cases he : (pyStrip h).isEmpty
  · simp [he, stripPieces]
  · simp [he, stripPieces]

theorem stripPieces_consHead_space {c : Char} (h : isPySpace c = true) :
    ∀ ll : List (List Char), stripPieces (consHead c ll) = stripPieces ll
  | [] => by
    rw [consHead, stripPieces_cons, pyStrip_cons_space h]
    simp [stripPieces, pyStrip]
  | p :: ps => by
    rw [consHead, stripPieces_cons, stripPieces_cons, pyStrip_cons_space h]

theorem consHead_ne_nil (c : Char) (ll : List (List Char)) : consHead c ll ≠ [] := by
  cases ll <;> simp [consHead]

theorem splitOnNN_ne_nil : ∀ s : List Char, splitOnNN s ≠ []
  | [] => by rw [splitOnNN]; simp
  | [c] => by rw [splitOnNN]; simp
  | c1 :: c2 :: rest => by
    rw [splitOnNN]
    split
    · simp
    · exact consHead_ne_nil _ _

theorem specSplit_ne_nil : ∀ s : List Char, specSplit s ≠ []
  | [] => by rw [specSplit]; simp
  | [c] => by rw [specSplit]; simp
  | c1 :: c2 :: rest => by
    rw [specSplit]
    split
    · simp
    · exact consHead_ne_nil _ _

/-- Prepending one line break to the input does not change the stripped,
non-empty paragraph list produced through `split('\n\n')`. -/
theorem stripPieces_split_nl (s : List Char) :
    stripPieces (splitOnNN ('\n' :: s)) = stripPieces (splitOnNN s) := by
  induction s with
  | nil =>
    rw [show splitOnNN ['\n'] = [['\n']] from rfl]
    rw [show splitOnNN [] = [[]] from rfl]
    rfl
  | cons c t ih =>
    by_cases h : c = '\n'
    · subst h
      rw [show splitOnNN ('\n' :: '\n' :: t) = [] :: splitOnNN t from by
        rw [splitOnNN]; simp]
      rw [stripPieces_cons]
      simp only [pyStrip, List.dropWhile_nil, List.reverse_nil, List.isEmpty_nil, if_true,
        List.nil_append]
      exact ih.symm ▸ (ih ▸ rfl)
    · rw [show splitOnNN ('\n' :: c :: t) = consHead '\n' (splitOnNN (c :: t)) from by
        rw [splitOnNN]; simp [h]]
      exact stripPieces_consHead_space (by rw [isPySpace]; simp) _

/-- Dropping a leading run of line breaks does not change the stripped,
non-empty paragraph list produced through `split('\n\n')`. -/
theorem stripPieces_split_dropNl (s : List Char) :
    stripPieces (splitOnNN (s.dropWhile (fun c => c = '\n'))) =
      stripPieces (splitOnNN s) := by
  induction s with
  | nil => rfl
  | cons c t ih =>
    by_cases h : c = '\n'
    · subst h
      rw [List.dropWhile_cons_of_pos (by simp), ih, stripPieces_split_nl]
    · rw [List.dropWhile_cons_of_neg (by simp [h])]

theorem stripPieces_of_headTail {l1 l2 : List (List Char)}
    (h1 : l1 ≠ []) (h2 : l2 ≠ [])
    (hh : l1.headD [] = l2.headD [])
    (ht : stripPieces l1.tail = stripPieces l2.tail) :
    stripPieces l1 = stripPieces l2 := by
  obtain ⟨a, ta, rfl⟩ := List.exists_cons_of_ne_nil h1
  obtain ⟨b, tb, rfl⟩ := List.exists_cons_of_ne_nil h2
  simp only [List.headD_cons, List.tail_cons] at hh ht
  rw [stripPieces_cons, stripPieces_cons, hh, ht]

/-- Invariant connecting the source's `split('\n\n')` to the specification's
blank-line-boundary split: the first pieces are literally equal, and the
remaining pieces agree after stripping and discarding empties. -/
theorem split_headTail : ∀ (n : Nat) (s : List Char), s.length ≤ n →
    (splitOnNN s).headD [] = (specSplit s).headD [] ∧
    stripPieces (splitOnNN s).tail = stripPieces (specSplit s).tail
  | 0, s, hl => by
    have : s = [] := List.eq_nil_of_length_eq_zero (Nat.le_zero.mp hl)
    subst this
    rw [show splitOnNN [] = [[]] from rfl, show specSplit [] = [[]] from by rw [specSplit]]
    exact ⟨rfl, rfl⟩
  | n + 1, [], _ => by
    rw [show splitOnNN [] = [[]] from rfl, show specSplit [] = [[]] from by rw [specSplit]]
    exact ⟨rfl, rfl⟩
  | n + 1, [c], _ => by
    rw [show splitOnNN [c] = [[c]] from rfl, show specSplit [c] = [[c]] from by rw [specSplit]]
    exact ⟨rfl, rfl⟩
  | n + 1, c1 :: c2 :: rest, hl => by
    have hrest : rest.length ≤ n := by simp only [List.length_cons] at hl; omega
    have hMlocal : ∀ u : List Char, u.length ≤ n →
        stripPieces (splitOnNN u) = stripPieces (specSplit u) := by
      intro u hu
      obtain ⟨hh, ht⟩ := split_headTail n u hu
      exact stripPieces_of_headTail (splitOnNN_ne_nil u) (specSplit_ne_nil u) hh ht
    by_cases hnn : c1 = '\n' ∧ c2 = '\n'
    · rw [show splitOnNN (c1 :: c2 :: rest) = [] :: splitOnNN rest from by
        rw [splitOnNN]; simp [hnn]]
      rw [show specSplit (c1 :: c2 :: rest)
            = [] :: specSplit (rest.dropWhile (fun c => c = '\n')) from by
        rw [specSplit]; simp [hnn]]
      refine ⟨rfl, ?_⟩
      simp only [List.tail_cons]
      rw [← stripPieces_split_dropNl rest]
      exact hMlocal _ (le_trans (length_dropWhile_le' _ rest) hrest)
    · rw [show splitOnNN (c1 :: c2 :: rest) = consHead c1 (splitOnNN (c2 :: rest)) from by
        rw [splitOnNN]; simp [hnn]]
      rw [show specSplit (c1 :: c2 :: rest) = consHead c1 (specSplit (c2 :: rest)) from by
        rw [specSplit]; simp [hnn]]
      have hlen2 : (c2 :: rest).length ≤ n := by
        simp only [List.length_cons] at hl ⊢; omega
      obtain ⟨hh, ht⟩ := split_headTail n (c2 :: rest) hlen2
      obtain ⟨a, ta, ha⟩ := List.exists_cons_of_ne_nil (splitOnNN_ne_nil (c2 :: rest))
      obtain ⟨b, tb, hb⟩ := List.exists_cons_of_ne_nil (specSplit_ne_nil (c2 :: rest))
      rw [ha, hb] at hh ht ⊢
      simp only [List.headD_cons, List.tail_cons] at hh ht
      rw [consHead, consHead, hh]
      exact ⟨rfl, ht⟩

/-- The source's paragraph pipeline (`split('\n\n')`, strip, discard empties)
agrees with the specification's blank-line-boundary split, strip, discard. -/
theorem stripPieces_split_eq_spec (s : List Char) :
    stripPieces (splitOnNN s) = stripPieces (specSplit s) := by
  obtain ⟨hh, ht⟩ := split_headTail s.length s (Nat.le_refl _)
  exact stripPieces_of_headTail (splitOnNN_ne_nil s) (specSplit_ne_nil s) hh ht

/-! ## The XML serializer

Fixed strings transcribed from `_text_to_pages_xml` (lines 96-113, 130-132)
and `_markdown_to_pages_xml` (lines 147-167, 212-214) of the source. -/

/-- The fixed document header emitted in plain-text mode (two styles). -/
def textHeader : List Char :=
  ("<?xml version=\"1.0\" encoding=\"UTF-8\"?>\n<sl:document xmlns:sl=\"http://developer.apple.com/namespaces/sl\" version=\"72028102400000000\">\n  <sl:metadata>\n    <sl:author>Pages Converter</sl:author>\n    <sl:creation-date>2024-01-01T12:00:00Z</sl:creation-date>\n  </sl:metadata>\n  <sl:styles>\n    <sl:paragraph-style sfa:ID=\"paragraph-style-0\" sf:name=\"Body\">\n      <sl:font sfa:fontName=\"Helvetica\" sfa:fontSize=\"12\"/>\n    </sl:paragraph-style>\n    <sl:paragraph-style sfa:ID=\"paragraph-style-1\" sf:name=\"Heading\">\n      <sl:font sfa:fontName=\"Helvetica-Bold\" sfa:fontSize=\"18\"/>\n    </sl:paragraph-style>\n  </sl:styles>\n  <sl:body>\n    <sl:section>\n      <sl:layout-style-ref sfa:IDref=\"layout-style-0\"/>\n").toList

/-- The fixed document header emitted in markdown mode (three styles). -/
def mdHeader : List Char :=
  ("<?xml version=\"1.0\" encoding=\"UTF-8\"?>\n<sl:document xmlns:sl=\"http://developer.apple.com/namespaces/sl\" version=\"72028102400000000\">\n  <sl:metadata>\n    <sl:author>Pages Converter</sl:author>\n    <sl:creation-date>2024-01-01T12:00:00Z</sl:creation-date>\n  </sl:metadata>\n  <sl:styles>\n    <sl:paragraph-style sfa:ID=\"paragraph-style-0\" sf:name=\"Body\">\n      <sl:font sfa:fontName=\"Helvetica\" sfa:fontSize=\"12\"/>\n    </sl:paragraph-style>\n    <sl:paragraph-style sfa:ID=\"paragraph-style-1\" sf:name=\"Heading\">\n      <sl:font sfa:fontName=\"Helvetica-Bold\" sfa:fontSize=\"18\"/>\n    </sl:paragraph-style>\n    <sl:paragraph-style sfa:ID=\"paragraph-style-2\" sf:name=\"Title\">\n      <sl:font sfa:fontName=\"Helvetica-Bold\" sfa:fontSize=\"24\"/>\n    </sl:paragraph-style>\n  </sl:styles>\n  <sl:body>\n    <sl:section>\n      <sl:layout-style-ref sfa:IDref=\"layout-style-0\"/>\n").toList

/-- The fixed closing part of the document. -/
def xmlFooter : List Char :=
  "    </sl:section>\n  </sl:body>\n</sl:document>".toList

/-- One emitted paragraph element, as produced by the source's f-strings
(identical shape in both modes): style reference and escaped text payload. -/
def paraChunk (sid payload : List Char) : List Char :=
  "      <sl:p sf:style=\"paragraph-style-".toList ++ sid
    ++ "\">\n        <sf:text>".toList ++ payload
    ++ "</sf:text>\n      </sl:p>".toList

/-- Source line 90: the retained, stripped paragraphs of plain-text input. -/
def textParagraphs (s : List Char) : List (List Char) :=
  stripPieces (splitOnNN s)

/-- Source lines 116-127: a plain-text paragraph is emitted with style "1"
when `para.isupper() and len(para) < 100`, else style "0". -/
def textParaChunk (p : List Char) : List Char :=
  if pyIsupper p = true ∧ p.length < 100 then paraChunk ['1'] (escape_xml p)
  else paraChunk ['0'] (escape_xml p)

/-- Source `_text_to_pages_xml` (lines 87-134): header, one chunk per
retained paragraph, footer, joined with `'\n'.join`. -/
def text_to_pages_xml (s : List Char) : List Char :=
  joinNL (textHeader :: ((textParagraphs s).map textParaChunk ++ [xmlFooter]))

/-! ## Markdown mode -/

/-- Source lines 170-171: strip `<p>` tags, turn `</p>` and `<br>` into line
breaks, then split on line breaks. The markdown-to-HTML transform itself is
an external collaborator; this function takes its HTML output. -/
def mdLines (html : List Char) : List (List Char) :=
  splitOnChar '\n'
    (pyReplace "<br>".toList ['\n']
      (pyReplace "</p>".toList ['\n']
        (pyReplace "<p>".toList [] html)))

/-- Chained `str.replace(tag, '')` calls, left to right. -/
def tagStripAll (tags : List (List Char)) (line : List Char) : List Char :=
  tags.foldl (fun acc t => pyReplace t [] acc) line

/-- The bullet glyph prefix of the source's list-item f-string (line 200). -/
def bulletGlyph : List Char := ['•', ' ']

/-- Source lines 173-209: per-line emission of `_markdown_to_pages_xml`.
`none` means the line produces no paragraph element. -/
def mdLineChunk (line0 : List Char) : Option (List Char) :=
  let line := pyStrip line0
  if line.isEmpty then none
  else if listStartsWith line "<h1>".toList then
    some (paraChunk ['2']
      (escape_xml (tagStripAll ["<h1>".toList, "</h1>".toList] line)))
  else if listStartsWith line "<h2>".toList || listStartsWith line "<h3>".toList then
    some (paraChunk ['1']
      (escape_xml (tagStripAll
        ["<h2>".toList, "</h2>".toList, "<h3>".toList, "</h3>".toList] line)))
  else if listStartsWith line "<strong>".toList || listStartsWith line "<b>".toList then
    some (paraChunk ['0']
      (escape_xml (tagStripAll
        ["<strong>".toList, "</strong>".toList, "<b>".toList, "</b>".toList] line)))
  else if listStartsWith line "<li>".toList then
    some (paraChunk ['0']
      (bulletGlyph ++ escape_xml (tagStripAll
        ["<li>".toList, "</li>".toList, "<ul>".toList, "</ul>".toList,
          "<ol>".toList, "</ol>".toList] line)))
  else
    let clean := pyStrip (pyReplace ['>'] [] (pyReplace ['<'] [] line))
    if clean.isEmpty then none else some (paraChunk ['0'] (escape_xml clean))

/-- Source `_markdown_to_pages_xml` (lines 136-216), as a function of the
external transform's HTML output: header, per-line chunks, footer, joined. -/
def markdown_to_pages_xml (html : List Char) : List Char :=
  joinNL (mdHeader :: ((mdLines html).filterMap mdLineChunk ++ [xmlFooter]))

/-! ## The document model (specification view) -/

/-- The kinds of document blocks named by the specification. -/
inductive BlockKind where
  | title
  | heading
  | body
  | bulletItem
deriving DecidableEq

/-- A classified unit of document content. -/
structure Block where
  kind : BlockKind
  text : List Char
deriving DecidableEq

/-- Style reference chosen by block kind: Title is style "2", Heading is
style "1", Body and BulletItem are style "0". -/
def styleIdOf : BlockKind → List Char
  | .title => ['2']
  | .heading => ['1']
  | .body => ['0']
  | .bulletItem => ['0']

/-- The raw text payload of a block: bullet items carry the leading bullet
glyph, everything else carries the block text unchanged. -/
def blockRawText (b : Block) : List Char :=
  match b.kind with
  | .bulletItem => bulletGlyph ++ b.text
  | _ => b.text

/-- Specification-side rendering of one block: a paragraph element whose
style is chosen by kind and whose payload is the escaped raw text (for
bullet items the glyph is prefixed before escaping). -/
def blockRender (b : Block) : List Char :=
  paraChunk (styleIdOf b.kind) (escape_xml (blockRawText b))

/-- Classification of one plain-text paragraph (already stripped, non-empty). -/
def classifyPara (p : List Char) : Block :=
  if pyIsupper p = true ∧ p.length < 100 then ⟨.heading, p⟩ else ⟨.body, p⟩

/-- The block sequence the source builds in plain-text mode. -/
def textBlocks (s : List Char) : List Block :=
  (textParagraphs s).map classifyPara

/-- The block sequence described by the specification's words for plain-text
mode: split on blank-line boundaries (runs of two or more line breaks), trim,
discard empties, classify by upper-case-and-short. -/
def specTextBlocks (s : List Char) : List Block :=
  (stripPieces (specSplit s)).map classifyPara

/-- Specification-side per-line classification in markdown mode. -/
def mdLineBlock (line0 : List Char) : Option Block :=
  let line := pyStrip line0
  if line.isEmpty then none
  else if listStartsWith line "<h1>".toList then
    some ⟨.title, tagStripAll ["<h1>".toList, "</h1>".toList] line⟩
  else if listStartsWith line "<h2>".toList || listStartsWith line "<h3>".toList then
    some ⟨.heading, tagStripAll
      ["<h2>".toList, "</h2>".toList, "<h3>".toList, "</h3>".toList] line⟩
  else if listStartsWith line "<strong>".toList || listStartsWith line "<b>".toList then
    some ⟨.body, tagStripAll
      ["<strong>".toList, "</strong>".toList, "<b>".toList, "</b>".toList] line⟩
  else if listStartsWith line "<li>".toList then
    some ⟨.bulletItem, tagStripAll
      ["<li>".toList, "</li>".toList, "<ul>".toList, "</ul>".toList,
        "<ol>".toList, "</ol>".toList] line⟩
  else
    let clean := pyStrip (pyReplace ['>'] [] (pyReplace ['<'] [] line))
    if clean.isEmpty then none else some ⟨.body, clean⟩

/-- The block sequence the source builds in markdown mode. -/
def mdBlocks (html : List Char) : List Block :=
  (mdLines html).filterMap mdLineBlock

/-! ## The bundle archiver (`_create_pages_bundle`, lines 226-275)

The scratch directory holds `index.xml`, `buildVersionHistory.plist` and
`QuickLook/Thumbnail.jpg`; the archive is written by iterating
`temp_path.rglob('*')` and adding every regular file. Two aspects of that
loop are environment inputs of the embedding:

* `enumOrder` — the order in which `Path.rglob('*')` yields the scratch
  directory's entries (a permutation of the four paths; the operating
  system fixes it, the code does not sort);
* `now` — the member modification timestamp. `zipfile.ZipFile.write`
  builds each member header from `os.stat(file).st_mtime` of the scratch
  file, i.e. from the wall clock at conversion time, and stores it in the
  archive bytes. -/

/-- Hex digit value, as accepted by Python `bytes.fromhex`
(code points 48-57 are digits, 65-70 and 97-102 the hex letters). -/
def hexDigitVal (c : Char) : Option Nat :=
  let n := c.toNat
  if 48 ≤ n ∧ n ≤ 57 then some (n - 48)
  else if 65 ≤ n ∧ n ≤ 70 then some (n - 55)
  else if 97 ≤ n ∧ n ≤ 102 then some (n - 87)
  else none

/-- Embedding of Python `bytes.fromhex`: pairs of hex digits, spaces
between bytes ignored. -/
def bytesFromHex : List Char → Option (List Nat)
  | [] => some []
  | ' ' :: rest => bytesFromHex rest
  | c1 :: c2 :: rest =>
    match hexDigitVal c1, hexDigitVal c2 with
    | some a, some b => (bytesFromHex rest).map (fun bs => (a * 16 + b) :: bs)
    | _, _ => none
  | [_] => none

/-- UTF-8 encoding of one code point. -/
def utf8EncodeChar (c : Char) : List Nat :=
  let n := c.toNat
  if n < 128 then [n]
  else if n < 2048 then [192 + n / 64, 128 + n % 64]
  else if n < 65536 then [224 + n / 4096, 128 + n / 64 % 64, 128 + n % 64]
  else [240 + n / 262144, 128 + n / 4096 % 64, 128 + n / 64 % 64, 128 + n % 64]

/-- UTF-8 encoding of a string, as written by `open(..., encoding='utf-8')`. -/
def utf8Encode (s : List Char) : List Nat :=
  s.foldr (fun c acc => utf8EncodeChar c ++ acc) []

/-- The fixed `buildVersionHistory.plist` text (source lines 242-251). -/
def plistContent : List Char :=
  ("<?xml version=\"1.0\" encoding=\"UTF-8\"?>\n<!DOCTYPE plist PUBLIC \"-//Apple//DTD PLIST 1.0//EN\" \"http://www.apple.com/DTDs/PropertyList-1.0.dtd\">\n<plist version=\"1.0\">\n<dict>\n    <key>BuildVersion</key>\n    <string>192</string>\n    <key>ProductVersion</key>\n    <string>4.0</string>\n</dict>\n</plist>").toList

/-- The placeholder thumbnail's hex text (source line 263, spaces included). -/
def thumbnailHex : List Char :=
  ("FFD8FFE000104A46494600010100000100010000FFDB004300080606070605080707070909080A0C140D0C0B0B0C1912130F141D1A1F1E1D1A1C1C20242E2720222C231C1C2837292C30313434341F27393D38323C2E333432FF C00011080001000103012200021101031101FFC4001500010100000000000000000000000000000008FFC40014100100000000000000000000000000000000FFC40014110100000000000000000000000000000000FFC40014120100000000000000000000000000000000FFC40014130100000000000000000000000000000000FFC0 0011080001000103011100021101031101FFDA000C03010002110311003F00B2C0FFD9").toList

/-- The fixed placeholder thumbnail bytes (`bytes.fromhex(...)`). -/
def thumbnailBytes : List Nat :=
  (bytesFromHex thumbnailHex).getD []

/-- One member of the produced ZIP archive. `dosTime` is the modification
timestamp `zipfile.ZipFile.write` stores in the member's header. -/
structure ZipEntry where
  arcname : List Char
  data : List Nat
  dosTime : Nat
deriving DecidableEq

def indexXmlName : List Char := "index.xml".toList

def plistName : List Char := "buildVersionHistory.plist".toList

def quickLookDirName : List Char := "QuickLook".toList

def thumbName : List Char := "QuickLook/Thumbnail.jpg".toList

/-- All paths in the scratch directory, as `rglob('*')` sees them. -/
def allBundlePaths : List (List Char) :=
  [indexXmlName, plistName, quickLookDirName, thumbName]

/-- Truth of `file_path.is_file()` for a scratch-directory path: true for the three
regular files, false for the `QuickLook` directory. -/
def isBundleFile (p : List Char) : Bool :=
  p == indexXmlName || p == plistName || p == thumbName

/-- The content of each scratch file written before archiving. -/
def bundleData (xml : List Char) (p : List Char) : List Nat :=
  if p == indexXmlName then utf8Encode xml
  else if p == plistName then utf8Encode plistContent
  else if p == thumbName then thumbnailBytes
  else []

/-- Source `_create_pages_bundle` (lines 226-275): the archive's member
list. Members are written in the enumeration order of `rglob('*')`
(restricted to regular files, no sorting), each carrying its scratch-file
modification timestamp. -/
def create_pages_bundle (xml : List Char) (now : Nat)
    (enumOrder : List (List Char)) : List ZipEntry :=
  (enumOrder.filter isBundleFile).map (fun p => ⟨p, bundleData xml p, now⟩)

/-! ## Error model (`convert_file`, `batch_convert`, lines 32-77, 297-323)

I/O outcomes are oracle inputs: each conversion's environment records
whether each effectful step raises and what the reads return. -/

/-- Exceptions relevant to the conversion flow. -/
inductive PyExc where
  | osError
  | unicodeDecodeError
deriving DecidableEq

/-- Outcome of a Python call: a returned value or a raised exception. -/
inductive PRes (α : Type) where
  | ok (a : α)
  | exc (e : PyExc)
deriving DecidableEq

/-- One input file together with the I/O outcomes its conversion meets. -/
structure InputFile where
  /-- the path relative to the batch input directory -/
  relPath : List Char
  /-- outcome of `input_path.exists()` (line 47) -/
  present : Bool
  /-- outcome of `input_file.is_file()` in the batch loop (line 314) -/
  isFile : Bool
  /-- result of `open(..., encoding='utf-8').read()` (lines 73-74) -/
  utf8Read : PRes (List Char)
  /-- the latin-1 fallback content; latin-1 decoding is total (lines 76-77) -/
  latin1Content : List Char
  /-- outcome of `output_file.parent.mkdir(...)` in the batch loop (line 318) -/
  outMkdirExc : Option PyExc
  /-- outcome of `output_path.parent.mkdir(...)` in the archiver (line 266) -/
  bundleMkdirExc : Option PyExc
  /-- creating/writing the `ZipFile` (lines 268-273) -/
  zipExc : Option PyExc
  /-- outcome of `output_path.exists()` after close (line 275) -/
  existsAfter : Bool
deriving DecidableEq

/-- Source `_read_input_file` (lines 69-77): UTF-8 first; only
`UnicodeDecodeError` is caught, falling back to latin-1; any other
exception propagates. -/
def read_input_file (f : InputFile) : PRes (List Char) :=
  match f.utf8Read with
  | .ok s => .ok s
  | .exc .unicodeDecodeError => .ok f.latin1Content
  | .exc e => .exc e

/-- The effect environment of one `_create_pages_bundle` call. -/
structure ArchiveEnv where
  mkdirExc : Option PyExc
  zipExc : Option PyExc
  existsAfter : Bool
deriving DecidableEq

/-- Control flow of `_create_pages_bundle` (lines 266-275): `mkdir` and the
`ZipFile` write are not guarded by any `try`, so their exceptions
propagate; otherwise the call returns `output_path.exists()`. -/
def create_pages_bundle_run (env : ArchiveEnv) : PRes Bool :=
  match env.mkdirExc with
  | some e => .exc e
  | none =>
    match env.zipExc with
    | some e => .exc e
    | none => .ok env.existsAfter

/-- The final path component. -/
def lastComponent (p : List Char) : List Char :=
  (p.reverse.takeWhile (fun c => c ≠ '/')).reverse

/-- Embedding of `pathlib.Path.suffix` (trailing-dot corner cases aside):
the final component's extension including the dot, or empty. -/
def pathSuffix (p : List Char) : List Char :=
  let name := lastComponent p
  if (name.drop 1).contains '.' then
    '.' :: (name.reverse.takeWhile (fun c => c ≠ '.')).reverse
  else []

/-- Embedding of `relative_path.with_suffix('.pages')` (line 317). -/
def withSuffixPages (p : List Char) : List Char :=
  p.take (p.length - (pathSuffix p).length) ++ ".pages".toList

/-- Source `convert_file` (lines 32-67): missing input returns `False`;
the read may raise; mode is chosen by the lower-cased suffix (`.md` is
markdown, everything else plain text); the archiver may raise; otherwise
its boolean is returned. `md` is the external markdown-to-HTML transform. -/
def convert_file (md : List Char → List Char) (f : InputFile) : PRes Bool :=
  if f.present = false then .ok false
  else
    match read_input_file f with
    | .exc e => .exc e
    | .ok content =>
      let _xml :=
        if (pathSuffix f.relPath).map Char.toLower = ".md".toList then
          markdown_to_pages_xml (md content)
        else text_to_pages_xml content
      create_pages_bundle_run ⟨f.bundleMkdirExc, f.zipExc, f.existsAfter⟩

/-- The batch loop body (lines 313-321), with the running success count. -/
def batchGo (md : List Char → List Char) : List InputFile → Nat → PRes Nat
  | [], n => .ok n
  | f :: fs, n =>
    if f.isFile = false then batchGo md fs n
    else
      match f.outMkdirExc with
      | some e => .exc e
      | none =>
        match convert_file md f with
        | .exc e => .exc e
        | .ok true => batchGo md fs (n + 1)
        | .ok false => batchGo md fs n

/-- Source `batch_convert` (lines 297-323). -/
def batch_convert (md : List Char → List Char) (dirPresent : Bool)
    (files : List InputFile) : PRes Nat :=
  if dirPresent = false then .ok 0 else batchGo md files 0

/-- The output paths the batch loop writes to (lines 315-317): the input
file's relative path mirrored under the output directory, extension
replaced by `.pages`. -/
def batchOutputPaths (outputDir : List Char) (files : List InputFile) : List (List Char) :=
  (files.filter (fun f => f.isFile)).map
    (fun f => outputDir ++ '/' :: withSuffixPages f.relPath)

/-- A conversion environment in which no operating-system error occurs
(decode errors are allowed: the source handles them). -/
def noOsFailure (f : InputFile) : Bool :=
  decide (f.utf8Read ≠ PRes.exc PyExc.osError) && decide (f.outMkdirExc = none)
    && decide (f.bundleMkdirExc = none) && decide (f.zipExc = none)

/-- The number of files whose conversion returns `True`. -/
def countConverted (md : List Char → List Char) (files : List InputFile) : Nat :=
  (files.filter (fun f => f.isFile)).countP
    (fun f => decide (convert_file md f = PRes.ok true))

/-! ## Well-formed XML documents

An XML document tree together with a renderer that escapes every text node
and attribute value. A byte string in the image of `renderDoc` on a
well-formed tree is well-formed XML: tags are balanced, names are valid,
attribute values are quoted, and character data holds reserved characters
only inside entities. `index.xml` is proved to be such an image. -/

/-- XML tree: character data, a self-closing element, or an element with
attributes and children. -/
inductive XNode where
  | text (s : List Char)
  | elemSC (tag : List Char) (attrs : List (List Char × List Char))
  | elem (tag : List Char) (attrs : List (List Char × List Char)) (children : List XNode)

/-- Escaping used by the renderer (character-wise entity substitution;
equal to the source's `_escape_xml` by `escape_xml_charwise`). -/
def escapeData : List Char → List Char :=
  charExpand entityOf

/-- Render an attribute list, escaping every value. -/
def renderAttrs (attrs : List (List Char × List Char)) : List Char :=
  attrs.foldr (fun a acc => ' ' :: (a.1 ++ '=' :: '"' :: (escapeData a.2 ++ '"' :: acc))) []

mutual

/-- Render one node: text nodes are escaped; elements render their tag,
attributes and children with balanced closing tags. -/
def renderNode : XNode → List Char
  | .text s => escapeData s
  | .elemSC t attrs => '<' :: (t ++ renderAttrs attrs ++ "/>".toList)
  | .elem t attrs children =>
    '<' :: (t ++ renderAttrs attrs
      ++ '>' :: (renderNodes children ++ '<' :: '/' :: (t ++ ['>'])))

/-- Render a list of sibling nodes. -/
def renderNodes : List XNode → List Char
  | [] => []
  | n :: ns => renderNode n ++ renderNodes ns

end

/-- A character allowed in an XML name (letters, digits, `:` `-` `_` `.`). -/
def validNameChar (c : Char) : Bool :=
  c.isAlpha || c.isDigit || c = ':' || c = '-' || c = '_' || c = '.'

/-- A valid XML name: non-empty, made of name characters. -/
def validXName (s : List Char) : Bool :=
  !s.isEmpty && s.all validNameChar

mutual

/-- Structural well-formedness of a tree: every tag and attribute name is
a valid XML name (text and attribute values need no condition: the
renderer escapes them). -/
def wfNode : XNode → Bool
  | .text _ => true
  | .elemSC t attrs => validXName t && attrs.all (fun a => validXName a.1)
  | .elem t attrs children =>
    validXName t && attrs.all (fun a => validXName a.1) && wfNodes children

/-- Well-formedness of a list of sibling nodes. -/
def wfNodes : List XNode → Bool
  | [] => true
  | n :: ns => wfNode n && wfNodes ns

end

/-- A complete document: XML declaration followed by one root element. -/
def renderDoc (root : XNode) : List Char :=
  "<?xml version=\"1.0\" encoding=\"UTF-8\"?>\n".toList ++ renderNode root

/-- The `sl:font` element of a style definition. -/
def fontNode (fam sz : List Char) : XNode :=
  .elemSC "sl:font".toList [("sfa:fontName".toList, fam), ("sfa:fontSize".toList, sz)]

/-- One `sl:paragraph-style` definition. -/
def styleDefNode (sid name fam sz : List Char) : XNode :=
  .elem "sl:paragraph-style".toList [("sfa:ID".toList, sid), ("sf:name".toList, name)]
    [.text "\n      ".toList, fontNode fam sz, .text "\n    ".toList]

/-- The fixed `sl:metadata` element. -/
def metadataNode : XNode :=
  .elem "sl:metadata".toList []
    [.text "\n    ".toList,
      .elem "sl:author".toList [] [.text "Pages Converter".toList],
      .text "\n    ".toList,
      .elem "sl:creation-date".toList [] [.text "2024-01-01T12:00:00Z".toList],
      .text "\n  ".toList]

/-- The two style definitions of plain-text mode. -/
def textStyleNodes : List XNode :=
  [.text "\n    ".toList,
    styleDefNode "paragraph-style-0".toList "Body".toList "Helvetica".toList "12".toList,
    .text "\n    ".toList,
    styleDefNode "paragraph-style-1".toList "Heading".toList "Helvetica-Bold".toList "18".toList,
    .text "\n  ".toList]

/-- The three style definitions of markdown mode. -/
def mdStyleNodes : List XNode :=
  [.text "\n    ".toList,
    styleDefNode "paragraph-style-0".toList "Body".toList "Helvetica".toList "12".toList,
    .text "\n    ".toList,
    styleDefNode "paragraph-style-1".toList "Heading".toList "Helvetica-Bold".toList "18".toList,
    .text "\n    ".toList,
    styleDefNode "paragraph-style-2".toList "Title".toList "Helvetica-Bold".toList "24".toList,
    .text "\n  ".toList]

/-- The fixed layout reference element. -/
def layoutRefNode : XNode :=
  .elemSC "sl:layout-style-ref".toList [("sfa:IDref".toList, "layout-style-0".toList)]

/-- One emitted paragraph as a tree node. -/
def pElemNode (b : Block) : XNode :=
  .elem "sl:p".toList
    [("sf:style".toList, "paragraph-style-".toList ++ styleIdOf b.kind)]
    [.text "\n        ".toList,
      .elem "sf:text".toList [] [.text (blockRawText b)],
      .text "\n      ".toList]

/-- The section children between consecutive paragraphs and before the close. -/
def sectionSep : List Block → List XNode
  | [] => [.text "\n    ".toList]
  | b :: bs => .text "\n      ".toList :: pElemNode b :: sectionSep bs

/-- The section children after the layout reference. -/
def sectionTail : List Block → List XNode
  | [] => [.text "\n\n    ".toList]
  | b :: bs => .text "\n\n      ".toList :: pElemNode b :: sectionSep bs

/-- The serialized document as a tree: fixed metadata, a style catalogue,
and the section holding the paragraph nodes. -/
def docNode (styles : List XNode) (tail : List XNode) : XNode :=
  .elem "sl:document".toList
    [("xmlns:sl".toList, "http://developer.apple.com/namespaces/sl".toList),
      ("version".toList, "72028102400000000".toList)]
    [.text "\n  ".toList, metadataNode, .text "\n  ".toList,
      .elem "sl:styles".toList [] styles,
      .text "\n  ".toList,
      .elem "sl:body".toList []
        [.text "\n    ".toList,
          .elem "sl:section".toList [] (.text "\n      ".toList :: layoutRefNode :: tail),
          .text "\n  ".toList],
      .text "\n".toList]

/-! ## Render lemmas: the serializer output is the image of a well-formed tree -/

/-- The closing tags shared by both modes. -/
def closeTags : List Char := "</sl:section>\n  </sl:body>\n</sl:document>".toList

/-- The plain-text header without its final line break. -/
def textPre : List Char :=
  ("<?xml version=\"1.0\" encoding=\"UTF-8\"?>\n<sl:document xmlns:sl=\"http://developer.apple.com/namespaces/sl\" version=\"72028102400000000\">\n  <sl:metadata>\n    <sl:author>Pages Converter</sl:author>\n    <sl:creation-date>2024-01-01T12:00:00Z</sl:creation-date>\n  </sl:metadata>\n  <sl:styles>\n    <sl:paragraph-style sfa:ID=\"paragraph-style-0\" sf:name=\"Body\">\n      <sl:font sfa:fontName=\"Helvetica\" sfa:fontSize=\"12\"/>\n    </sl:paragraph-style>\n    <sl:paragraph-style sfa:ID=\"paragraph-style-1\" sf:name=\"Heading\">\n      <sl:font sfa:fontName=\"Helvetica-Bold\" sfa:fontSize=\"18\"/>\n    </sl:paragraph-style>\n  </sl:styles>\n  <sl:body>\n    <sl:section>\n      <sl:layout-style-ref sfa:IDref=\"layout-style-0\"/>").toList

/-- The markdown header without its final line break. -/
def mdPre : List Char :=
  ("<?xml version=\"1.0\" encoding=\"UTF-8\"?>\n<sl:document xmlns:sl=\"http://developer.apple.com/namespaces/sl\" version=\"72028102400000000\">\n  <sl:metadata>\n    <sl:author>Pages Converter</sl:author>\n    <sl:creation-date>2024-01-01T12:00:00Z</sl:creation-date>\n  </sl:metadata>\n  <sl:styles>\n    <sl:paragraph-style sfa:ID=\"paragraph-style-0\" sf:name=\"Body\">\n      <sl:font sfa:fontName=\"Helvetica\" sfa:fontSize=\"12\"/>\n    </sl:paragraph-style>\n    <sl:paragraph-style sfa:ID=\"paragraph-style-1\" sf:name=\"Heading\">\n      <sl:font sfa:fontName=\"Helvetica-Bold\" sfa:fontSize=\"18\"/>\n    </sl:paragraph-style>\n    <sl:paragraph-style sfa:ID=\"paragraph-style-2\" sf:name=\"Title\">\n      <sl:font sfa:fontName=\"Helvetica-Bold\" sfa:fontSize=\"24\"/>\n    </sl:paragraph-style>\n  </sl:styles>\n  <sl:body>\n    <sl:section>\n      <sl:layout-style-ref sfa:IDref=\"layout-style-0\"/>").toList

theorem renderDoc_text_decomp (Y : List XNode) :
    renderDoc (docNode textStyleNodes Y) = textPre ++ (renderNodes Y ++ closeTags) := by
  simp only [renderDoc, docNode, renderNode, renderNodes, renderAttrs, metadataNode,
    textStyleNodes, styleDefNode, fontNode, layoutRefNode, List.append_assoc,
    List.cons_append, List.nil_append, List.foldr]
  rfl

theorem renderDoc_md_decomp (Y : List XNode) :
    renderDoc (docNode mdStyleNodes Y) = mdPre ++ (renderNodes Y ++ closeTags) := by
  simp only [renderDoc, docNode, renderNode, renderNodes, renderAttrs, metadataNode,
    mdStyleNodes, styleDefNode, fontNode, layoutRefNode, List.append_assoc,
    List.cons_append, List.nil_append, List.foldr]
  rfl

theorem blockRender_eq (b : Block) :
    blockRender b = "      ".toList ++ renderNode (pElemNode b) := by
  obtain ⟨k, t⟩ := b
  have hesc : escape_xml (blockRawText ⟨k, t⟩) = escapeData (blockRawText ⟨k, t⟩) :=
    escape_xml_charwise _
  cases k <;>
    (simp only [blockRender, paraChunk, hesc, pElemNode, renderNode, renderNodes,
      renderAttrs, styleIdOf, List.append_assoc, List.cons_append, List.nil_append,
      List.foldr, escapeData, charExpand_append]
     rfl)

theorem joinSep_eq_renderSep : ∀ bs : List Block,
    '\n' :: joinNL (bs.map blockRender ++ [xmlFooter]) = renderNodes (sectionSep bs) ++ closeTags
  | [] => by
    simp only [List.map_nil, List.nil_append, joinNL, sectionSep, renderNodes, renderNode]
    decide
  | b :: rest => by
    have ih := joinSep_eq_renderSep rest
    simp only [List.map_cons, List.cons_append, sectionSep, renderNodes]
    rw [show joinNL (blockRender b :: (rest.map blockRender ++ [xmlFooter]))
        = blockRender b ++ '\n' :: joinNL (rest.map blockRender ++ [xmlFooter]) from by
      cases h : rest.map blockRender ++ [xmlFooter] with
      | nil => exact absurd h (by simp)
      | cons x xs => rw [joinNL]]
    rw [blockRender_eq b]
    rw [show ('\n' :: ("      ".toList ++ renderNode (pElemNode b)
          ++ '\n' :: joinNL (rest.map blockRender ++ [xmlFooter])))
        = "\n      ".toList ++ (renderNode (pElemNode b)
          ++ ('\n' :: joinNL (rest.map blockRender ++ [xmlFooter]))) from by
      simp [List.append_assoc]]
    rw [ih]
    rw [show renderNode (XNode.text "\n      ".toList) = "\n      ".toList from by decide]
    simp [List.append_assoc]

theorem joinTail_eq_renderTail : ∀ bs : List Block,
    '\n' :: '\n' :: joinNL (bs.map blockRender ++ [xmlFooter])
      = renderNodes (sectionTail bs) ++ closeTags
  | [] => by
    simp only [List.map_nil, List.nil_append, joinNL, sectionTail, renderNodes, renderNode]
    decide
  | b :: rest => by
    have ih := joinSep_eq_renderSep rest
    simp only [List.map_cons, List.cons_append, sectionTail, renderNodes]
    rw [show joinNL (blockRender b :: (rest.map blockRender ++ [xmlFooter]))
        = blockRender b ++ '\n' :: joinNL (rest.map blockRender ++ [xmlFooter]) from by
      cases h : rest.map blockRender ++ [xmlFooter] with
      | nil => exact absurd h (by simp)
      | cons x xs => rw [joinNL]]
    rw [blockRender_eq b]
    rw [show ('\n' :: '\n' :: ("      ".toList ++ renderNode (pElemNode b)
          ++ '\n' :: joinNL (rest.map blockRender ++ [xmlFooter])))
        = "\n\n      ".toList ++ (renderNode (pElemNode b)
          ++ ('\n' :: joinNL (rest.map blockRender ++ [xmlFooter]))) from by
      simp [List.append_assoc]]
    rw [ih]
    rw [show renderNode (XNode.text "\n\n      ".toList) = "\n\n      ".toList from by decide]
    simp [List.append_assoc]

/-- The chunks emitted in plain-text mode are the rendering of the
classified blocks. -/
theorem textChunks_eq_blockRender (s : List Char) :
    (textParagraphs s).map textParaChunk = (textBlocks s).map blockRender := by
  rw [textBlocks, List.map_map]
  apply List.map_congr_left
  intro p _
  by_cases h : pyIsupper p = true ∧ p.length < 100 <;>
    simp [textParaChunk, classifyPara, blockRender, blockRawText, styleIdOf, h]

/-- The plain-text serializer output is the rendering of a document tree. -/
theorem text_render (s : List Char) :
    text_to_pages_xml s = renderDoc (docNode textStyleNodes (sectionTail (textBlocks s))) := by
  rw [text_to_pages_xml, textChunks_eq_blockRender, renderDoc_text_decomp,
    ← joinTail_eq_renderTail]
  rw [show textPre ++ ('\n' :: '\n' :: joinNL ((textBlocks s).map blockRender ++ [xmlFooter]))
      = (textPre ++ ['\n']) ++ ('\n' :: joinNL ((textBlocks s).map blockRender ++ [xmlFooter])) from by
    simp [List.append_assoc]]
  rw [show textPre ++ ['\n'] = textHeader from by decide]
  cases h : (textBlocks s).map blockRender ++ [xmlFooter] with
  | nil => exact absurd h (by simp)
  | cons x xs => rw [joinNL]

/-- Escaping fixes the bullet glyph, so prefixing it before or after
escaping yields the same payload. -/
theorem escape_glyph (t : List Char) :
    escape_xml (bulletGlyph ++ t) = bulletGlyph ++ escape_xml t := by
  rw [escape_xml_append]
  have h : escape_xml bulletGlyph = bulletGlyph := by
    rw [escape_xml_charwise]; decide
  rw [h]

/-- Per line, the markdown emitter produces exactly the rendering of the
classified block (bullet items get the glyph before escaping). -/
theorem mdLineChunk_eq (line : List Char) :
    mdLineChunk line = (mdLineBlock line).map blockRender := by
  rw [mdLineChunk, mdLineBlock]
  split_ifs with h0 h1 h2 h3 h4
  · rfl
  · simp [blockRender, blockRawText, styleIdOf]
  · simp [blockRender, blockRawText, styleIdOf]
  · simp [blockRender, blockRawText, styleIdOf]
  · simp [blockRender, blockRawText, styleIdOf, escape_glyph]
  · by_cases hc : (pyStrip (pyReplace ['>'] [] (pyReplace ['<'] [] (pyStrip line)))).isEmpty <;>
      simp [hc, blockRender, blockRawText, styleIdOf]

/-- The chunks emitted in markdown mode are the rendering of the blocks. -/
theorem mdChunks_eq_blockRender (html : List Char) :
    (mdLines html).filterMap mdLineChunk = (mdBlocks html).map blockRender := by
  rw [mdBlocks, List.map_filterMap]
  apply List.filterMap_congr
  intro line _
  exact mdLineChunk_eq line

/-- The markdown serializer output is the rendering of a document tree. -/
theorem md_render (html : List Char) :
    markdown_to_pages_xml html
      = renderDoc (docNode mdStyleNodes (sectionTail (mdBlocks html))) := by
  rw [markdown_to_pages_xml, mdChunks_eq_blockRender, renderDoc_md_decomp,
    ← joinTail_eq_renderTail]
  rw [show mdPre ++ ('\n' :: '\n' :: joinNL ((mdBlocks html).map blockRender ++ [xmlFooter]))
      = (mdPre ++ ['\n']) ++ ('\n' :: joinNL ((mdBlocks html).map blockRender ++ [xmlFooter])) from by
    simp [List.append_assoc]]
  rw [show mdPre ++ ['\n'] = mdHeader from by decide]
  cases h : (mdBlocks html).map blockRender ++ [xmlFooter] with
  | nil => exact absurd h (by simp)
  | cons x xs => rw [joinNL]

theorem wf_sectionSep : ∀ bs : List Block, wfNodes (sectionSep bs) = true
  | [] => by decide
  | b :: rest => by
    rw [sectionSep, wfNodes, wfNodes]
    have ih := wf_sectionSep rest
    cases hk : b.kind <;> simp [wfNode, pElemNode, wfNodes, validXName, validNameChar, ih]

theorem wf_sectionTail : ∀ bs : List Block, wfNodes (sectionTail bs) = true
  | [] => by decide
  | b :: rest => by
    rw [sectionTail, wfNodes, wfNodes]
    have ih := wf_sectionSep rest
    cases hk : b.kind <;> simp [wfNode, pElemNode, wfNodes, validXName, validNameChar, ih]

theorem wf_textDoc (bs : List Block) :
    wfNode (docNode textStyleNodes (sectionTail bs)) = true := by
  have h := wf_sectionTail bs
  simp [docNode, wfNode, wfNodes, metadataNode, textStyleNodes, styleDefNode, fontNode,
    layoutRefNode, validXName, validNameChar, h]

theorem wf_mdDoc (bs : List Block) :
    wfNode (docNode mdStyleNodes (sectionTail bs)) = true := by
  have h := wf_sectionTail bs
  simp [docNode, wfNode, wfNodes, metadataNode, mdStyleNodes, styleDefNode, fontNode,
    layoutRefNode, validXName, validNameChar, h]

/-! ## Helpers for the claim theorems -/

theorem charExpand_delete (c : Char) :
    ∀ s : List Char,
      charExpand (fun x => if x = c then [] else [x]) s = s.filter (fun x => !(x = c))
  | [] => rfl
  | x :: rest => by
    rw [charExpand, List.filter_cons]
    by_cases h : x = c <;> simp [h, charExpand_delete c rest]

/-- Replacing a single character by the empty string deletes it. -/
theorem pyReplace_delete (c : Char) (s : List Char) :
    pyReplace [c] [] s = s.filter (fun x => !(x = c)) := by
  rw [pyReplace_single, charExpand_delete]

theorem bundleData_index (xml : List Char) :
    bundleData xml indexXmlName = utf8Encode xml := by
  rw [bundleData, if_pos (by decide)]

theorem bundleData_plist (xml : List Char) :
    bundleData xml plistName = utf8Encode plistContent := by
  rw [bundleData, if_neg (by decide), if_pos (by decide)]

theorem bundleData_thumb (xml : List Char) :
    bundleData xml thumbName = thumbnailBytes := by
  rw [bundleData, if_neg (by decide), if_neg (by decide), if_pos (by decide)]

/-- For any enumeration order that is a permutation of the scratch
directory's paths, the archive's members are a permutation of the three
fixed files with their exact contents. -/
theorem bundle_members_perm (xml : List Char) (now : Nat) (order : List (List Char))
    (h : order.Perm allBundlePaths) :
    ((create_pages_bundle xml now order).map (fun e => (e.arcname, e.data))).Perm
      [(indexXmlName, utf8Encode xml), (plistName, utf8Encode plistContent),
        (thumbName, thumbnailBytes)] := by
  have hfun : ((fun e : ZipEntry => (e.arcname, e.data))
      ∘ (fun p => (⟨p, bundleData xml p, now⟩ : ZipEntry))) = fun p => (p, bundleData xml p) := rfl
  rw [create_pages_bundle, List.map_map, hfun]
  have h2 : (allBundlePaths.filter isBundleFile).map (fun p => (p, bundleData xml p))
      = [(indexXmlName, utf8Encode xml), (plistName, utf8Encode plistContent),
          (thumbName, thumbnailBytes)] := by
    rw [show allBundlePaths.filter isBundleFile = [indexXmlName, plistName, thumbName]
      from by decide]
    rw [List.map_cons, List.map_cons, List.map_cons, List.map_nil,
      bundleData_index, bundleData_plist, bundleData_thumb]
  exact h2 ▸ ((h.filter isBundleFile).map (fun p => (p, bundleData xml p)))

/-- Substring test (used to state the fixed plist's key contents). -/
def containsSeq (needle : List Char) : List Char → Bool
  | [] => needle.isEmpty
  | c :: rest => listStartsWith (c :: rest) needle || containsSeq needle rest

/-- Lexicographic strict order on character lists. -/
def lexLtB : List Char → List Char → Bool
  | [], [] => false
  | [], _ :: _ => true
  | _ :: _, [] => false
  | a :: as, b :: bs => if a < b then true else if a = b then lexLtB as bs else false

/-- The creation order of the scratch directory's entries (`index.xml`,
then the plist, then the `QuickLook` directory and its thumbnail), which is
what `rglob` yields on a filesystem that enumerates in insertion order. -/
def creationOrder : List (List Char) :=
  [indexXmlName, plistName, quickLookDirName, thumbName]

/-- Under an exception-free environment a single conversion returns a
boolean rather than raising. -/
theorem convert_file_no_raise (md : List Char → List Char) (f : InputFile)
    (h : noOsFailure f = true) :
    ∃ b, convert_file md f = PRes.ok b := by
  rw [noOsFailure] at h
  simp only [Bool.and_eq_true, decide_eq_true_eq] at h
  obtain ⟨⟨⟨hread, _⟩, hmk⟩, hzip⟩ := h
  rw [convert_file]
  by_cases hp : f.present = false
  · rw [if_pos hp]
    exact ⟨false, rfl⟩
  · rw [if_neg hp]
    have hrun : create_pages_bundle_run ⟨f.bundleMkdirExc, f.zipExc, f.existsAfter⟩
        = PRes.ok f.existsAfter := by
      rw [hmk, hzip, create_pages_bundle_run]
    cases hr : f.utf8Read with
    | ok c => rw [read_input_file, hr]; exact ⟨f.existsAfter, hrun⟩
    | exc e =>
      cases e with
      | osError => exact absurd hr hread
      | unicodeDecodeError => rw [read_input_file, hr]; exact ⟨f.existsAfter, hrun⟩

theorem batchGo_spec (md : List Char → List Char) :
    ∀ (files : List InputFile) (n : Nat), files.all noOsFailure = true →
      batchGo md files n = PRes.ok (n + countConverted md files)
  | [], n, _ => by simp [batchGo, countConverted]
  | f :: fs, n, h => by
    rw [List.all_cons, Bool.and_eq_true] at h
    obtain ⟨hf, hfs⟩ := h
    rw [batchGo]
    by_cases hif : f.isFile = false
    · rw [if_pos hif, batchGo_spec md fs n hfs]
      have : countConverted md (f :: fs) = countConverted md fs := by
        rw [countConverted, countConverted, List.filter_cons, if_neg (by simp [hif])]
      rw [this]
    · have hift : f.isFile = true := by revert hif; cases f.isFile <;> simp
      rw [if_neg hif]
      have hmk : f.outMkdirExc = none := by
        rw [noOsFailure] at hf
        simp only [Bool.and_eq_true, decide_eq_true_eq] at hf
        exact hf.1.1.2
      rw [hmk]
      obtain ⟨b, hb⟩ := convert_file_no_raise md f hf
      rw [hb]
      cases b with
      | true =>
        have hcount : countConverted md (f :: fs) = countConverted md fs + 1 := by
          rw [countConverted, countConverted, List.filter_cons, if_pos (by simp [hift]),
            List.countP_cons]
          simp [hb]
        rw [batchGo_spec md fs (n + 1) hfs, hcount]
        have harith : n + 1 + countConverted md fs = n + (countConverted md fs + 1) := by omega
        rw [harith]
      | false =>
        have hcount : countConverted md (f :: fs) = countConverted md fs := by
          rw [countConverted, countConverted, List.filter_cons, if_pos (by simp [hift]),
            List.countP_cons]
          simp [hb]
        rw [batchGo_spec md fs n hfs, hcount]

/-! ## The claims -/

/-- C1: the claim says the archive's bytes are a function of the input bytes
alone, with no wall-clock dependence. The code contradicts this (and its own
"Deterministic converter" docstring and determinism test): each ZIP member
header stores the scratch file's modification time, i.e. the wall clock at
conversion time, so the same empty input archived at two different
timestamps yields different archives. -/
theorem c1_timestamp_dependence :
    create_pages_bundle (text_to_pages_xml []) 0 creationOrder
      ≠ create_pages_bundle (text_to_pages_xml []) 2 creationOrder := by
  intro h
  have h2 := congrArg (List.map ZipEntry.dosTime) h
  rw [create_pages_bundle, create_pages_bundle, List.map_map, List.map_map] at h2
  exact absurd h2 (by decide)

/-- C2: escaping then entity-decoding is the identity on every string, and
escaped output holds no raw `< > " '` and no ampersand outside an entity. -/
theorem c2_escape_roundtrip (s : List Char) :
    unescape_xml (escape_xml s) = s
  ∧ (escape_xml s).all (fun c => !isRawReserved c) = true
  ∧ ampersandsEntityOnly (escape_xml s) = true := by
  rw [escape_xml_charwise]
  exact ⟨unescape_charExpand s, escape_no_raw_reserved s, escape_amps_entity_only s⟩

/-- C3: the escaping step substitutes exactly the five reserved characters
with their entities, ampersand first, and the chained replacements equal a
single character-wise substitution (no double-escaping of entities
introduced by later steps). -/
theorem c3_escape_charwise :
    (∀ s, escape_xml s = charExpand entityOf s)
  ∧ entityOf '&' = "&amp;".toList ∧ entityOf '<' = "&lt;".toList
  ∧ entityOf '>' = "&gt;".toList ∧ entityOf '"' = "&quot;".toList
  ∧ entityOf '\'' = "&apos;".toList
  ∧ (∀ c, c ≠ '&' → c ≠ '<' → c ≠ '>' → c ≠ '"' → c ≠ '\'' → entityOf c = [c]) := by
  refine ⟨escape_xml_charwise, rfl, rfl, rfl, rfl, rfl, ?_⟩
  intro c h1 h2 h3 h4 h5
  exact entityOf_of_plain h1 h2 h3 h4 h5

theorem c3_witness :
    escape_xml "a&b".toList = charExpand entityOf "a&b".toList ∧ entityOf 'x' = ['x'] :=
  ⟨c3_escape_charwise.1 _,
    c3_escape_charwise.2.2.2.2.2.2 'x' (by decide) (by decide) (by decide) (by decide)
      (by decide)⟩

/-- C4 (counterexample): in an archive produced from the scratch
directory's creation order, the member names come out as `index.xml`,
`buildVersionHistory.plist`, `QuickLook/Thumbnail.jpg` — not sorted
lexicographically — and a different enumeration order yields a different
archive, so the layout depends on traversal order. -/
theorem c4_not_lexicographic :
    ¬ List.Chain' (fun a b => lexLtB a b = true)
        ((create_pages_bundle (text_to_pages_xml []) 0 creationOrder).map ZipEntry.arcname)
  ∧ create_pages_bundle (text_to_pages_xml []) 0 creationOrder
      ≠ create_pages_bundle (text_to_pages_xml []) 0
          [plistName, indexXmlName, quickLookDirName, thumbName] := by
  constructor
  · intro hch
    have hmap : (create_pages_bundle (text_to_pages_xml []) 0 creationOrder).map
        ZipEntry.arcname = [indexXmlName, plistName, thumbName] := rfl
    rw [hmap] at hch
    exact absurd (List.chain'_cons.mp hch).1 (by decide)
  · decide

/-- C4 (amended): the members are written in the scratch directory's
enumeration order restricted to regular files — exactly the traversal
order, with no sorting — and for any enumeration that is a permutation of
the scratch paths they are some permutation of the three member names. -/
theorem c4_traversal_order (xml : List Char) (now : Nat) (order : List (List Char))
    (h : order.Perm allBundlePaths) :
    (create_pages_bundle xml now order).map ZipEntry.arcname = order.filter isBundleFile
  ∧ ((create_pages_bundle xml now order).map ZipEntry.arcname).Perm
      [indexXmlName, plistName, thumbName] := by
  have he : (create_pages_bundle xml now order).map ZipEntry.arcname
      = order.filter isBundleFile := by
    rw [create_pages_bundle, List.map_map]
    have hid : (ZipEntry.arcname ∘ fun p => (⟨p, bundleData xml p, now⟩ : ZipEntry)) = id := rfl
    rw [hid, List.map_id]
  refine ⟨he, ?_⟩
  rw [he]
  have h2 : allBundlePaths.filter isBundleFile = [indexXmlName, plistName, thumbName] := by
    decide
  exact h2 ▸ h.filter isBundleFile

theorem c4_witness :
    (create_pages_bundle [] 0
        [thumbName, quickLookDirName, plistName, indexXmlName]).map ZipEntry.arcname
      = [thumbName, quickLookDirName, plistName, indexXmlName].filter isBundleFile
  ∧ ((create_pages_bundle [] 0
        [thumbName, quickLookDirName, plistName, indexXmlName]).map ZipEntry.arcname).Perm
      [indexXmlName, plistName, thumbName] :=
  c4_traversal_order [] 0 _ (by decide)

/-- C5: the plain-text block builder (split on `'\n\n'`, strip, discard
empties, classify) agrees with the specification's wording (split on runs
of two or more line breaks, strip, discard empties, classify), and each
retained paragraph is a Heading exactly when it is upper-case (Python
`isupper`) and shorter than 100 characters, else a Body; order preserved. -/
theorem c5_plaintext_blocks (s : List Char) :
    textBlocks s = specTextBlocks s
  ∧ (textBlocks s).all
      (fun b => (decide (b.kind = BlockKind.heading)
            == (pyIsupper b.text && decide (b.text.length < 100)))
        && (decide (b.kind = BlockKind.heading) || decide (b.kind = BlockKind.body)))
      = true := by
  constructor
  · rw [textBlocks, specTextBlocks, textParagraphs, stripPieces_split_eq_spec]
  · rw [textBlocks, List.all_eq_true]
    intro b hb
    obtain ⟨p, hp, rfl⟩ := List.mem_map.mp hb
    by_cases h : pyIsupper p = true ∧ p.length < 100
    · simp [classifyPara, h, h.1, h.2]
    · by_cases hu : pyIsupper p = true
      · have hlen : ¬p.length < 100 := fun hl => h ⟨hu, hl⟩
        simp [classifyPara, h, hu, hlen]
      · have hu2 : pyIsupper p = false := by revert hu; cases pyIsupper p <;> simp
        simp [classifyPara, h, hu2]

/-- C6: both serializers emit exactly one paragraph element per block in
order; the style reference is "2" for Title (markdown catalogue includes a
Title style), "1" for Heading, "0" for Body and BulletItem; a bullet item's
payload is the glyph-prefixed text, escaped; an h1 line yields a Title
block in markdown mode. -/
theorem c6_serializer_styles :
    (∀ s, text_to_pages_xml s
        = joinNL (textHeader :: ((textBlocks s).map blockRender ++ [xmlFooter])))
  ∧ (∀ html, markdown_to_pages_xml html
        = joinNL (mdHeader :: ((mdBlocks html).map blockRender ++ [xmlFooter])))
  ∧ styleIdOf BlockKind.title = ['2'] ∧ styleIdOf BlockKind.heading = ['1']
  ∧ styleIdOf BlockKind.body = ['0'] ∧ styleIdOf BlockKind.bulletItem = ['0']
  ∧ (∀ b : Block, blockRender b = paraChunk (styleIdOf b.kind) (escape_xml (blockRawText b)))
  ∧ (∀ t, blockRawText ⟨BlockKind.bulletItem, t⟩ = bulletGlyph ++ t)
  ∧ (∀ line, listStartsWith (pyStrip line) "<h1>".toList = true →
        (mdLineBlock line).map Block.kind = some BlockKind.title) := by
  refine ⟨?_, ?_, rfl, rfl, rfl, rfl, fun b => rfl, fun t => rfl, ?_⟩
  · intro s
    rw [text_to_pages_xml, textChunks_eq_blockRender]
  · intro html
    rw [markdown_to_pages_xml, mdChunks_eq_blockRender]
  · intro line hl
    have hne : ¬((pyStrip line).isEmpty = true) := by
      cases hps : pyStrip line with
      | nil => rw [hps] at hl; exact absurd hl (by decide)
      | cons c cs => simp
    simp only [mdLineBlock]
    rw [if_neg hne, if_pos hl]
    rfl

theorem c6_witness :
    (mdLineBlock "<h1>Hi</h1>".toList).map Block.kind = some BlockKind.title :=
  c6_serializer_styles.2.2.2.2.2.2.2.2 "<h1>Hi</h1>".toList (by decide)

/-- C7: for any scratch-directory enumeration order, the produced archive
holds exactly the three members `index.xml` (the UTF-8 document),
`buildVersionHistory.plist` (the fixed plist with BuildVersion 192 and
ProductVersion 4.0) and `QuickLook/Thumbnail.jpg` (the fixed placeholder
bytes); and in both modes `index.xml` is well-formed XML: it is the
rendering of a structurally well-formed document tree with every text
payload and attribute value escaped. -/
theorem c7_archive_structure :
    (∀ (s : List Char) (now : Nat) (order : List (List Char)),
        order.Perm allBundlePaths →
        ((create_pages_bundle (text_to_pages_xml s) now order).map
            (fun e => (e.arcname, e.data))).Perm
          [(indexXmlName, utf8Encode (text_to_pages_xml s)),
            (plistName, utf8Encode plistContent), (thumbName, thumbnailBytes)])
  ∧ (∀ (html : List Char) (now : Nat) (order : List (List Char)),
        order.Perm allBundlePaths →
        ((create_pages_bundle (markdown_to_pages_xml html) now order).map
            (fun e => (e.arcname, e.data))).Perm
          [(indexXmlName, utf8Encode (markdown_to_pages_xml html)),
            (plistName, utf8Encode plistContent), (thumbName, thumbnailBytes)])
  ∧ (∀ s, text_to_pages_xml s
        = renderDoc (docNode textStyleNodes (sectionTail (textBlocks s)))
      ∧ wfNode (docNode textStyleNodes (sectionTail (textBlocks s))) = true)
  ∧ (∀ html, markdown_to_pages_xml html
        = renderDoc (docNode mdStyleNodes (sectionTail (mdBlocks html)))
      ∧ wfNode (docNode mdStyleNodes (sectionTail (mdBlocks html))) = true)
  ∧ containsSeq "<key>BuildVersion</key>\n    <string>192</string>".toList plistContent = true
  ∧ containsSeq "<key>ProductVersion</key>\n    <string>4.0</string>".toList plistContent
      = true := by
  refine ⟨?_, ?_, ?_, ?_, by decide, by decide⟩
  · intro s now order h
    exact bundle_members_perm _ now order h
  · intro html now order h
    exact bundle_members_perm _ now order h
  · intro s
    exact ⟨text_render s, wf_textDoc _⟩
  · intro html
    exact ⟨md_render html, wf_mdDoc _⟩

theorem c7_witness :
    ((create_pages_bundle (text_to_pages_xml []) 0 allBundlePaths).map
        (fun e => (e.arcname, e.data))).Perm
      [(indexXmlName, utf8Encode (text_to_pages_xml [])),
        (plistName, utf8Encode plistContent), (thumbName, thumbnailBytes)] :=
  c7_archive_structure.1 [] 0 allBundlePaths (List.Perm.refl _)

/-- C8 (counterexample): a file whose read raises an operating-system
error aborts the whole batch with that exception instead of being skipped
and excluded from the count: only `UnicodeDecodeError` is caught. -/
theorem c8_read_error_aborts :
    batch_convert (fun h => h) true
        [{ relPath := "a.txt".toList, present := true, isFile := true,
           utf8Read := PRes.exc PyExc.osError, latin1Content := [],
           outMkdirExc := none, bundleMkdirExc := none, zipExc := none,
           existsAfter := true }]
      = PRes.exc PyExc.osError
  ∧ batch_convert (fun h => h) true
        [{ relPath := "a.txt".toList, present := true, isFile := true,
           utf8Read := PRes.exc PyExc.osError, latin1Content := [],
           outMkdirExc := none, bundleMkdirExc := none, zipExc := none,
           existsAfter := true }]
      ≠ PRes.ok 0 := by
  constructor
  · decide
  · decide

/-- C8 (amended): when no file's conversion raises an operating-system
exception, the batch returns exactly the number of conversions that return
`True` (conversions returning `False`, such as missing inputs, are not
counted and do not abort the batch), and each output path mirrors the
input's relative path under the output directory with the extension
replaced by `.pages`. -/
theorem c8_batch_count (md : List Char → List Char) (files : List InputFile)
    (h : files.all noOsFailure = true) :
    batch_convert md true files = PRes.ok (countConverted md files)
  ∧ ∀ outputDir, batchOutputPaths outputDir files
      = (files.filter (fun f => f.isFile)).map
          (fun f => outputDir ++ '/' ::
            (f.relPath.take (f.relPath.length - (pathSuffix f.relPath).length)
              ++ ".pages".toList)) := by
  refine ⟨?_, fun outputDir => rfl⟩
  rw [batch_convert, if_neg (by simp), batchGo_spec md files 0 h, Nat.zero_add]

theorem c8_witness :
    batch_convert (fun h => h) true
        [{ relPath := "b.txt".toList, present := true, isFile := true,
           utf8Read := PRes.ok "HELLO".toList, latin1Content := [],
           outMkdirExc := none, bundleMkdirExc := none, zipExc := none,
           existsAfter := true },
         { relPath := "c.txt".toList, present := false, isFile := true,
           utf8Read := PRes.ok [], latin1Content := [],
           outMkdirExc := none, bundleMkdirExc := none, zipExc := none,
           existsAfter := true }]
      = PRes.ok (countConverted (fun h => h)
        [{ relPath := "b.txt".toList, present := true, isFile := true,
           utf8Read := PRes.ok "HELLO".toList, latin1Content := [],
           outMkdirExc := none, bundleMkdirExc := none, zipExc := none,
           existsAfter := true },
         { relPath := "c.txt".toList, present := false, isFile := true,
           utf8Read := PRes.ok [], latin1Content := [],
           outMkdirExc := none, bundleMkdirExc := none, zipExc := none,
           existsAfter := true }]) :=
  (c8_batch_count _ _ (by decide)).1

/-- C9 (counterexample): when the output directory cannot be created or the
archive cannot be written, `_create_pages_bundle` raises (no `try` guards
those calls) instead of returning a failure value. -/
theorem c9_mkdir_raises :
    create_pages_bundle_run ⟨some PyExc.osError, none, false⟩ = PRes.exc PyExc.osError
  ∧ create_pages_bundle_run ⟨some PyExc.osError, none, false⟩ ≠ PRes.ok false
  ∧ create_pages_bundle_run ⟨some PyExc.osError, none, false⟩ ≠ PRes.ok true
  ∧ create_pages_bundle_run ⟨none, some PyExc.osError, false⟩ = PRes.exc PyExc.osError := by
  refine ⟨rfl, ?_, ?_, rfl⟩
  · decide
  · decide

/-- C9 (amended): when directory creation and the archive write raise no
exception, the archiver returns success exactly when the output file exists
after the archive is closed. -/
theorem c9_success_iff_exists (env : ArchiveEnv)
    (h1 : env.mkdirExc = none) (h2 : env.zipExc = none) :
    create_pages_bundle_run env = PRes.ok env.existsAfter
  ∧ (create_pages_bundle_run env = PRes.ok true ↔ env.existsAfter = true) := by
  obtain ⟨m, z, e⟩ := env
  simp only at h1 h2
  subst h1
  subst h2
  cases e <;> simp [create_pages_bundle_run]

theorem c9_witness :
    create_pages_bundle_run ⟨none, none, true⟩
        = PRes.ok (ArchiveEnv.mk none none true).existsAfter
    ∧ (create_pages_bundle_run ⟨none, none, true⟩ = PRes.ok true
        ↔ (ArchiveEnv.mk none none true).existsAfter = true) :=
  c9_success_iff_exists ⟨none, none, true⟩ rfl rfl

/-- C10: a rendered HTML line that is non-empty after stripping and does
not begin with an h1, h2, h3, strong, b or li tag is emitted as a body
paragraph whose text is the line with every `<` and every `>` deleted and
then trimmed (dropped entirely if nothing remains): angle brackets and any
tags in such a line are silently removed, not escaped or preserved. -/
theorem c10_tag_stripping (line : List Char)
    (hne : (pyStrip line).isEmpty = false)
    (h1 : listStartsWith (pyStrip line) "<h1>".toList = false)
    (h2 : listStartsWith (pyStrip line) "<h2>".toList = false)
    (h3 : listStartsWith (pyStrip line) "<h3>".toList = false)
    (hs : listStartsWith (pyStrip line) "<strong>".toList = false)
    (hb : listStartsWith (pyStrip line) "<b>".toList = false)
    (hl : listStartsWith (pyStrip line) "<li>".toList = false) :
    mdLineChunk line
      = (if (pyStrip ((pyStrip line).filter (fun c => !(c = '<' || c = '>')))).isEmpty
         then none
         else some (paraChunk ['0']
           (escape_xml (pyStrip ((pyStrip line).filter (fun c => !(c = '<' || c = '>'))))))) := by
  have hdel : pyReplace ['>'] [] (pyReplace ['<'] [] (pyStrip line))
      = (pyStrip line).filter (fun c => !(c = '<' || c = '>')) := by
    rw [pyReplace_delete, pyReplace_delete, List.filter_filter]
    apply List.filter_congr
    intro c _
    by_cases hc1 : c = '<' <;> by_cases hc2 : c = '>' <;> simp [hc1, hc2]
  simp only [mdLineChunk, hne, h1, h2, h3, hs, hb, hl, Bool.false_eq_true, if_false,
    Bool.or_self, hdel]

theorem c10_witness :
    mdLineChunk "x <em>y</em>".toList
      = (if (pyStrip ((pyStrip "x <em>y</em>".toList).filter
            (fun c => !(c = '<' || c = '>')))).isEmpty
         then none
         else some (paraChunk ['0']
           (escape_xml (pyStrip ((pyStrip "x <em>y</em>".toList).filter
             (fun c => !(c = '<' || c = '>'))))))) :=
  c10_tag_stripping "x <em>y</em>".toList (by decide) (by decide) (by decide) (by decide)
    (by decide) (by decide) (by decide)

end PagesConverter
